import Mathlib

/-!
Shallow embedding of the mixture-distribution statistics engine of the
DeepExtremeMixtureModel repository (src/util.py), together with theorems
settling the frozen claims about it.

Modelling conventions:
- Tensor entries are modelled by the type FP below: a finite real, one of
  the two infinities, or NaN, with arithmetic following IEEE-754 double
  semantics for the operations the source uses.  Signed zeros are
  collapsed to fin 0 (no claim depends on the sign of a zero).
- A tensor of shape (n,) is an index function Fin n -> FP; the trailing
  parameter dimension of size 2 (tensors stacked with torch.stack along
  axis 1) is modelled as a pair of index functions.
- Elementwise masked assignment (out[mask] = v, out[mask] += v) becomes a
  pointwise selection, as the statements operate independently per cell.
- The scalar constraint functions of the source are additionally modelled
  directly on the reals, since they contain no NaN handling and the
  claims about them quantify over real inputs.
- Python exceptions (ValueError, AssertionError, and the TypeError raised
  by a call with an unexpected keyword argument) are modelled with Except.
- The error function of torch.erf has no Mathlib counterpart; it is
  threaded through as an explicit function parameter erf : R -> R, kept
  abstract.  Theorems that need it assume only its range bound.
-/

namespace DEMM

/-- Floating-point value of a tensor cell: finite real, positive
infinity, negative infinity, or NaN. -/
inductive FP where
  | fin : ℝ → FP
  | pinf : FP
  | ninf : FP
  | nan : FP

namespace FP

/-- Test for NaN, as torch.isnan. -/
def isnan : FP → Bool
  | nan => true
  | _ => false

/-- Test for an infinity, as torch.isinf. -/
def isinf : FP → Bool
  | pinf => true
  | ninf => true
  | _ => false

/-- Test for a finite value. -/
def isFin : FP → Bool
  | fin _ => true
  | _ => false

/-- IEEE comparison: strictly less.  Any comparison with NaN is false. -/
def flt : FP → FP → Prop
  | nan, _ => False
  | _, nan => False
  | fin x, fin y => x < y
  | fin _, pinf => True
  | fin _, ninf => False
  | pinf, _ => False
  | ninf, ninf => False
  | ninf, _ => True

/-- IEEE equality: NaN compares unequal to everything, itself included. -/
def feq : FP → FP → Prop
  | fin x, fin y => x = y
  | pinf, pinf => True
  | ninf, ninf => True
  | _, _ => False

/-- IEEE comparison: less or equal (false whenever unordered). -/
def fle (x y : FP) : Prop := flt x y ∨ feq x y

noncomputable instance decFlt (x y : FP) : Decidable (flt x y) := by
  cases x <;> cases y <;> simp only [flt] <;> infer_instance

noncomputable instance decFeq (x y : FP) : Decidable (feq x y) := by
  cases x <;> cases y <;> simp only [feq] <;> infer_instance

noncomputable instance decFle (x y : FP) : Decidable (fle x y) := by
  unfold fle; infer_instance

/-- IEEE negation. -/
def neg : FP → FP
  | nan => nan
  | pinf => ninf
  | ninf => pinf
  | fin x => fin (-x)

/-- IEEE addition: NaN propagates, opposite infinities give NaN. -/
def add : FP → FP → FP
  | nan, _ => nan
  | _, nan => nan
  | fin x, fin y => fin (x + y)
  | fin _, pinf => pinf
  | fin _, ninf => ninf
  | pinf, fin _ => pinf
  | pinf, pinf => pinf
  | pinf, ninf => nan
  | ninf, fin _ => ninf
  | ninf, pinf => nan
  | ninf, ninf => ninf

/-- IEEE subtraction, as addition of the negation. -/
def sub (x y : FP) : FP := add x (neg y)

/-- IEEE multiplication: NaN propagates, zero times an infinity is NaN. -/
noncomputable def mul : FP → FP → FP
  | nan, _ => nan
  | _, nan => nan
  | fin x, fin y => fin (x * y)
  | fin x, pinf => if x = 0 then nan else if 0 < x then pinf else ninf
  | fin x, ninf => if x = 0 then nan else if 0 < x then ninf else pinf
  | pinf, fin y => if y = 0 then nan else if 0 < y then pinf else ninf
  | ninf, fin y => if y = 0 then nan else if 0 < y then ninf else pinf
  | pinf, pinf => pinf
  | pinf, ninf => ninf
  | ninf, pinf => ninf
  | ninf, ninf => pinf

/-- IEEE division: zero over zero and infinity over infinity are NaN, a
nonzero finite value over zero is a signed infinity (the sign of the zero
divisor is collapsed to positive). -/
noncomputable def div : FP → FP → FP
  | nan, _ => nan
  | _, nan => nan
  | fin x, fin y =>
      if y = 0 then (if x = 0 then nan else if 0 < x then pinf else ninf)
      else fin (x / y)
  | fin _, pinf => fin 0
  | fin _, ninf => fin 0
  | pinf, fin y => if 0 ≤ y then pinf else ninf
  | ninf, fin y => if 0 ≤ y then ninf else pinf
  | pinf, pinf => nan
  | pinf, ninf => nan
  | ninf, pinf => nan
  | ninf, ninf => nan

/-- Exponential, as torch.exp: exp of negative infinity is zero. -/
noncomputable def fexp : FP → FP
  | nan => nan
  | pinf => pinf
  | ninf => fin 0
  | fin x => fin (Real.exp x)

/-- Natural logarithm, as torch.log: log of zero is negative infinity,
log of a negative value (or of negative infinity) is NaN. -/
noncomputable def flog : FP → FP
  | nan => nan
  | pinf => pinf
  | ninf => nan
  | fin x => if x < 0 then nan else if x = 0 then ninf else fin (Real.log x)

instance : Neg FP := ⟨neg⟩

noncomputable instance : Add FP := ⟨add⟩

noncomputable instance : Sub FP := ⟨sub⟩

noncomputable instance : Mul FP := ⟨mul⟩

noncomputable instance : Div FP := ⟨div⟩

/-- IEEE power, as torch.pow and the numpy ** operator.  One to any power
and anything to the power zero give one (NaN operands included); a
negative finite base demands an integer exponent. -/
noncomputable def fpow (x y : FP) : FP :=
  if feq y (fin 0) then fin 1
  else if feq x (fin 1) then fin 1
  else
    match x, y with
    | nan, _ => nan
    | _, nan => nan
    | fin a, fin b =>
        if 0 < a then fin (Real.rpow a b)
        else if a = 0 then (if 0 < b then fin 0 else pinf)
        else if Int.fract b = 0 then fin (a ^ (⌊b⌋)) else nan
    | fin a, pinf => if 1 < |a| then pinf else if |a| = 1 then fin 1 else fin 0
    | fin a, ninf => if 1 < |a| then fin 0 else if |a| = 1 then fin 1 else pinf
    | pinf, fin b => if 0 < b then pinf else fin 0
    | pinf, pinf => pinf
    | pinf, ninf => fin 0
    | ninf, fin b =>
        if 0 < b then (if Int.fract b = 0 ∧ ⌊b⌋ % 2 = 1 then ninf else pinf)
        else fin 0
    | ninf, pinf => pinf
    | ninf, ninf => fin 0

/-- Reciprocal, as torch.reciprocal. -/
noncomputable def recip (x : FP) : FP := div (fin 1) x

/-- Error function lifted to FP from an abstract real-valued core. -/
def ferf (erf : ℝ → ℝ) : FP → FP
  | nan => nan
  | pinf => fin 1
  | ninf => fin (-1)
  | fin x => fin (erf x)

/-- Square root of two, the scalar math.sqrt(2) of the source. -/
noncomputable def sqrt2 : ℝ := Real.sqrt 2

/-- A value that is not NaN. -/
def notNan (x : FP) : Prop := isnan x = false

end FP

/-- Python exceptions thrown by the engine. -/
inductive PyErr where
  | valueError : String → PyErr
  | assertionError : PyErr
  | typeError : String → PyErr

/-- torch.sigmoid. -/
noncomputable def sigmoid (x : ℝ) : ℝ := 1 / (1 + Real.exp (-x))

/-- torch.nn.functional.softplus with parameter beta.  Mirrors the torch
implementation, which reverts to the identity on its input once the input
times beta exceeds the stability threshold 20. -/
noncomputable def softplus (x beta : ℝ) : ℝ :=
  if 20 < x * beta then x else (1 / beta) * Real.log (1 + Real.exp (beta * x))

/-- util.prob_constraint (line 140): squashes into the open interval
(eps, 1 - eps).  The source default for eps is 0.01. -/
noncomputable def prob_constraint (k eps : ℝ) : ℝ :=
  sigmoid k * (1 - 2 * eps) + eps

/-- util.pos_constraint (line 147): positive transform selected by the
func string, defaults func = exp and eps = 1e-2 at every internal call
site. -/
noncomputable def pos_constraint (k : ℝ) (func : String) (eps : ℝ) : Except PyErr ℝ :=
  if func = "exp" then Except.ok (Real.exp k + eps)
  else if func = "abs" then Except.ok (|k| + eps)
  else if func = "square" then Except.ok (k ^ 2 + eps)
  else Except.error (PyErr.valueError "unsupported positivity enforcement function")

/-- util.pos_constraint at its default arguments, the form every internal
caller uses; pos_constraint_default_ok ties it to pos_constraint. -/
noncomputable def pos_constraint_exp (k : ℝ) : ℝ := Real.exp k + 1e-2

/-- util.upper_thresh_constraint (line 164): softplus-based saturation
below thresh, with an optional positivity constraint on the input first
(pos_constraint at its defaults). -/
noncomputable def upper_thresh_constraint (x thresh : ℝ) (constrain_positive : Bool)
    (beta : ℝ) : ℝ :=
  let out := (if constrain_positive then pos_constraint_exp x else x);
  -(softplus (-out + thresh) beta) + thresh

/-- util.lognormal_constraint (line 186): mu is passed through, the
variance is constrained positive and below 30.  The stacked tensor of the
source is modelled as a pair. -/
noncomputable def lognormal_constraint (mu var : ℝ) : ℝ × ℝ :=
  (mu, upper_thresh_constraint var 30 true 1)

/-- torch.nn.functional.threshold: the value x where x is strictly above
the threshold t, the replacement v elsewhere. -/
noncomputable def torch_threshold (x t v : ℝ) : ℝ := if t < x then x else v

/-- util.gp_upper_thresh_constraint (line 246): blends the raw shape with
its softly upper-bounded transform, the blend weight being the raw value
over thresh clamped to the unit interval via two nested threshold calls. -/
noncomputable def gp_upper_thresh_constraint (x thresh beta : ℝ) : ℝ :=
  let upper_threshed_output := upper_thresh_constraint x thresh false beta
  let output_weight0 := x / thresh
  let output_weight :=
    -1 * torch_threshold (-1 * torch_threshold output_weight0 0 0) (-1) (-1)
  output_weight * upper_threshed_output + (1 - output_weight) * x

open Classical in
/-- Elementwise boolean-mask assignment, the numpy and torch idiom
a[mask] = v: each cell where the mask holds receives v, the rest keep
their value. -/
noncomputable def massign {n : ℕ} (a : Fin n → FP) (mask : Fin n → Prop) (v : FP) :
    Fin n → FP := fun i => if mask i then v else a i

/-- util.lognormal (line 423): lognormal log density with the constant
2 * 3.14159274 of the source.  Its first statement mutates the samples
tensor of the caller in place, adding 10 to every entry exactly equal to
zero; the model therefore returns the updated samples array in the first
slot and the per-cell log density in the second. -/
noncomputable def lognormal {n : ℕ} (samples mu var : Fin n → FP) :
    (Fin n → FP) × (Fin n → FP) :=
  let samples1 := fun i =>
    if FP.feq (samples i) (FP.fin 0) then FP.add (samples i) (FP.fin 10) else samples i
  let first_term := fun i =>
    FP.sub (FP.sub (FP.neg (FP.flog (samples1 i)))
        (FP.mul (FP.fin 0.5) (FP.flog (var i))))
      (FP.mul (FP.fin 0.5) (FP.flog (FP.fin (2 * 3.14159274))))
  let second_term := fun i =>
    FP.neg (FP.div (FP.fpow (FP.sub (FP.flog (samples1 i)) (mu i)) (FP.fin 2))
      (FP.mul (FP.fin 2) (var i)))
  (samples1, fun i => FP.add (first_term i) (second_term i))

/-- util.lognorm_cdf (line 409): lognormal cdf through the abstract error
function. -/
noncomputable def lognorm_cdf (erf : ℝ → ℝ) {n : ℕ} (vals mu var : Fin n → FP) :
    Fin n → FP := fun i =>
  FP.add (FP.fin 0.5) (FP.mul (FP.fin 0.5) (FP.ferf erf
    (FP.div (FP.sub (FP.flog (vals i)) (mu i))
      (FP.mul (FP.fpow (var i) (FP.fin 0.5)) (FP.fin FP.sqrt2)))))

/-- util.threshed_lognorm (line 441): upper-truncated lognormal log
density; inherits the in-place mutation of its samples argument from
lognormal.  The source default for eps is 1e-6. -/
noncomputable def threshed_lognorm (erf : ℝ → ℝ) {n : ℕ}
    (samples threshes mu var : Fin n → FP) (eps : ℝ) :
    (Fin n → FP) × (Fin n → FP) :=
  let ln := lognormal samples mu var
  (ln.1, fun i => FP.sub (ln.2 i)
    (FP.flog (FP.add (lognorm_cdf erf threshes mu var i) (FP.fin eps))))

/-- util.gp_constraint2 (line 219): constrained GP parameters.  In
continuity mode the scale is one over the supplied initial density and
the function asserts the density is present; otherwise the scale is the
upper-bounded transform of the raw scale input.  The source default for
eps is 1e-6. -/
noncomputable def gp_constraint2 {n : ℕ} (k1 k2 maxis : Fin n → ℝ)
    (continuous_evt : Bool) (initial_density : Option (Fin n → ℝ)) (eps : ℝ) :
    Except PyErr (Fin n → ℝ × ℝ) :=
  let k1c := fun i => pos_constraint_exp (k1 i)
  match continuous_evt, initial_density with
  | true, none => Except.error PyErr.assertionError
  | true, some d =>
      let sigma := fun i => 1 / d i
      let xi := fun i => (k1c i - 1) * sigma i / (maxis i + eps)
      Except.ok (fun i => (gp_upper_thresh_constraint (xi i) 0.9 5, sigma i))
  | false, _ =>
      let sigma := fun i => upper_thresh_constraint (k2 i) 40 true 1
      let xi := fun i => (k1c i - 1) * sigma i / (maxis i + eps)
      Except.ok (fun i => (gp_upper_thresh_constraint (xi i) 0.9 5, sigma i))

/-- util.all_constraints (line 276).  After constraining the binary
probabilities and, for the lognormal case, the moderate parameters, the
continuity branch evaluates the moderate log density by calling
lognormal(thresholds, mu, var, reduction=None).  The lognormal function
of line 423 takes exactly three parameters and no reduction keyword, so
under Python call semantics this call raises a TypeError before the body
of lognormal runs.  The result is returned together with the thresholds
array as it stands after the call; no execution path mutates it, because
the only path that would hand it to lognormal dies at the call itself. -/
noncomputable def all_constraints {n : ℕ} (binaries gpd_stats main_stats : Fin n → ℝ × ℝ)
    (maxis : Fin n → ℝ) (continuous_evt : Bool) (main_func : String)
    (thresholds : Option (Fin n → ℝ)) :
    Except PyErr ((Fin n → ℝ × ℝ) × (Fin n → ℝ × ℝ) × (Fin n → ℝ × ℝ)) ×
      Option (Fin n → ℝ) :=
  let binariesC := fun i =>
    (prob_constraint (binaries i).1 0.01, prob_constraint (binaries i).2 0.01)
  if main_func = "lognormal" then
    let mainC := fun i => lognormal_constraint (main_stats i).1 (main_stats i).2
    if continuous_evt then
      match thresholds with
      | none => (Except.error PyErr.assertionError, thresholds)
      | some _ =>
          (Except.error (PyErr.typeError
            "lognormal got an unexpected keyword argument reduction"), thresholds)
    else
      match gp_constraint2 (fun i => (gpd_stats i).1) (fun i => (gpd_stats i).2) maxis
          continuous_evt none (1e-6) with
      | Except.ok gpdC => (Except.ok (binariesC, gpdC, mainC), thresholds)
      | Except.error e => (Except.error e, thresholds)
  else
    (Except.error (PyErr.valueError
      "Only lognormal distribution is supported for non-excess values."), thresholds)

/-- util.compute_class_labels (line 674): derives per-cell class labels
by four masked assignments run in source order, each later assignment
overwriting earlier labels: start from all ones, zero out the NaN entries
of a copy of y, set label 0 where the adjusted y is zero, set label 2
where the adjusted y strictly exceeds the threshold, and finally restore
NaN at the originally missing cells. -/
noncomputable def compute_class_labels {n : ℕ} (y threshes : Fin n → FP) :
    Fin n → FP :=
  let labels0 := fun _ : Fin n => FP.fin 1
  let nans := fun i => FP.isnan (y i) = true
  let y1 := massign y nans (FP.fin 0)
  let labels1 := massign labels0 (fun i => FP.feq (y1 i) (FP.fin 0)) (FP.fin 0)
  let labels2 := massign labels1 (fun i => FP.flt (threshes i) (y1 i)) (FP.fin 2)
  massign labels2 nans FP.nan

/-- util.gp_mean (line 49): mean of the generalized Pareto distribution.
The eps parameter of the source is unused in its body. -/
noncomputable def gp_mean {n : ℕ} (xi sigma thresh : Fin n → FP) : Fin n → FP :=
  fun i => FP.add (thresh i) (FP.div (sigma i) (FP.sub (FP.fin 1) (xi i)))

/-- util.norm_cdf (line 76): normal cdf through the abstract error
function. -/
noncomputable def norm_cdf (erf : ℝ → ℝ) {n : ℕ} (vals mu sigma : Fin n → FP) :
    Fin n → FP := fun i =>
  FP.mul (FP.fin 0.5) (FP.add (FP.fin 1) (FP.ferf erf
    (FP.div (FP.mul (FP.sub (vals i) (mu i)) (FP.recip (sigma i))) (FP.fin FP.sqrt2))))

/-- util.trunc_lognorm_mean (line 57): mean of the upper-truncated
lognormal, with the eps-guarded normal-cdf denominator.  The source
default for eps is 1e-6. -/
noncomputable def trunc_lognorm_mean (erf : ℝ → ℝ) {n : ℕ} (mu var upper : Fin n → FP)
    (eps : ℝ) : Fin n → FP :=
  let beta := fun i =>
    FP.div (FP.sub (FP.flog (upper i)) (mu i)) (FP.fpow (var i) (FP.fin 0.5))
  let sigma := fun i => FP.fpow (var i) (FP.fin 0.5)
  let scaling_factor := fun i => FP.div
    (norm_cdf erf (fun j => FP.sub (beta j) (sigma j)) (fun _ => FP.fin 0)
      (fun _ => FP.fin 1) i)
    (FP.add (FP.fin eps) (norm_cdf erf beta (fun _ => FP.fin 0) (fun _ => FP.fin 1) i))
  fun i => FP.mul (FP.fexp (FP.add (mu i) (FP.div (var i) (FP.fin 2)))) (scaling_factor i)

/-- util.all_mean (line 113): mean of the mixture model.  The zero
component contributes the Python scalar 0; the GP component is skipped
entirely when every threshold is infinite. -/
noncomputable def all_mean (erf : ℝ → ℝ) {n : ℕ}
    (gpd_stats moderate_stats : Fin n → FP × FP)
    (zero_probs excess_probs threshes : Fin n → FP) (moderate_func : String) :
    Except PyErr (Fin n → FP) :=
  if moderate_func = "lognormal" then
    let weighted_moderate0 := trunc_lognorm_mean erf (fun i => (moderate_stats i).1)
      (fun i => (moderate_stats i).2) threshes (1e-6)
    let weighted_moderate := fun i => FP.mul (weighted_moderate0 i)
      (FP.mul (FP.sub (FP.fin 1) (zero_probs i)) (FP.sub (FP.fin 1) (excess_probs i)))
    if ∀ i, FP.isinf (threshes i) = true then
      Except.ok (fun i => FP.add (FP.add (FP.fin 0) (weighted_moderate i)) (FP.fin 0))
    else
      let weighted_excess0 := gp_mean (fun i => (gpd_stats i).1)
        (fun i => (gpd_stats i).2) threshes
      let weighted_excess := fun i => FP.mul (weighted_excess0 i)
        (FP.mul (FP.sub (FP.fin 1) (zero_probs i)) (excess_probs i))
      Except.ok (fun i =>
        FP.add (FP.add (FP.fin 0) (weighted_moderate i)) (weighted_excess i))
  else
    Except.error (PyErr.valueError "only lognormal function is supported for mean calculations")

/-- Spec-side definition for the refinement claim C5, written from the
words of the spec: the pure hurdle-model mean is the zero component
contribution plus (1 - zeroProb) times (1 - excessProb) times the
truncated lognormal mean, with no GP contribution. -/
noncomputable def hurdle_mean (erf : ℝ → ℝ) {n : ℕ} (moderate_stats : Fin n → FP × FP)
    (zero_probs excess_probs threshes : Fin n → FP) : Fin n → FP :=
  fun i => FP.add (FP.fin 0)
    (FP.mul (FP.mul (FP.sub (FP.fin 1) (zero_probs i)) (FP.sub (FP.fin 1) (excess_probs i)))
      (trunc_lognorm_mean erf (fun j => (moderate_stats j).1)
        (fun j => (moderate_stats j).2) threshes (1e-6) i))

/-- util.no_nans (line 691): mask of cells where both inputs are
non-NaN. -/
def no_nans {n : ℕ} (a b : Fin n → FP) : Fin n → Bool :=
  fun i => !(FP.isnan (a i)) && !(FP.isnan (b i))

/-- util.pearsonr (line 699), modelled with explicit call fuel.  The def
statement rebinds the module-level name pearsonr, shadowing the scipy
import, so the call inside the body resolves to the function itself; the
joint mask it computes is never used, and each activation immediately
re-enters itself on the flattened arrays (the identity on the
one-dimensional input modelled here).  A result of none means the call
has not produced a value within the given fuel. -/
def pearsonr_fuel {n : ℕ} : ℕ → (Fin n → FP) → (Fin n → FP) → Option ℝ
  | 0, _, _ => none
  | fuel + 1, a, b =>
      let _mask := no_nans a b
      pearsonr_fuel fuel a b

/-- util.gpd (line 349): GP log likelihood of excesses.  The source
copies the raw samples into a fresh tensor, zeroes the cells whose sample
or shape is NaN, computes the zero-shape and nonzero-shape branches each
on its own boolean-masked subset, scatters both into a fresh zero tensor,
and finally overwrites the masked-out cells with NaN; the model states
the same computation pointwise (the trailing multiplication by minus one
of each branch is IEEE negation). -/
noncomputable def gpd {n : ℕ} (raw_samples xi sigma : Fin n → FP) : Fin n → FP :=
  fun i =>
    let mask := FP.isnan (raw_samples i) = false ∧ FP.isnan (xi i) = false
    let samples := if mask then FP.add (FP.fin 0) (raw_samples i) else FP.fin 0
    let maskFP : FP := if mask then FP.fin 1 else FP.fin 0
    let xi_nz := FP.neg (FP.add (FP.flog (sigma i))
      (FP.mul (FP.mul (FP.add (FP.fin 1) (FP.div (FP.fin 1) (xi i))) maskFP)
        (FP.flog (FP.add (FP.fin 1) (FP.div (FP.mul (xi i) samples) (sigma i))))))
    let xi_z := FP.neg (FP.add (FP.flog (sigma i))
      (FP.mul (FP.div (FP.fin 1) (sigma i)) samples))
    if ¬ mask then FP.nan
    else if FP.feq (xi i) (FP.fin 0) then xi_z else xi_nz

/-- util.gpd_cdf (line 487): GP cdf, a single formula with no branch on
the shape parameter; the exponent is the literal minus one divided by the
shape.  The source default for thresh is the scalar zero. -/
noncomputable def gpd_cdf {n : ℕ} (vals xi sigma thresh : Fin n → FP) : Fin n → FP :=
  fun i => FP.sub (FP.fin 1)
    (FP.fpow
      (FP.add (FP.fin 1)
        (FP.div (FP.mul (xi i) (FP.sub (vals i) (thresh i))) (sigma i)))
      (FP.div (FP.fin (-1)) (xi i)))

/-- util.threshed_lognorm_cdf (line 456): truncated lognormal cdf.  The
three masked assignments run in source order (zero below the lower bound,
one above the upper bound, zero where the normalizing denominator is
exactly zero), each later one overwriting earlier values; absent bounds
fall back to the literal sentinels of the source. -/
noncomputable def threshed_lognorm_cdf (erf : ℝ → ℝ) {n : ℕ} (vals mu var : Fin n → FP)
    (lower upper : Option (Fin n → FP)) : Fin n → FP :=
  let upperV := fun i => match upper with
    | none => FP.fin 99999999
    | some u => u i
  let upper_cdf := fun i => match upper with
    | none => FP.fin 1
    | some u => lognorm_cdf erf u mu var i
  let lowerV := fun i => match lower with
    | none => FP.fin (-99999999)
    | some l => l i
  let lower_cdf := fun i => match lower with
    | none => FP.fin 0
    | some l => lognorm_cdf erf l mu var i
  let denom := fun i => FP.sub (upper_cdf i) (lower_cdf i)
  let out0 := fun i => FP.div (lognorm_cdf erf vals mu var i) (denom i)
  let out1 := massign out0 (fun i => FP.flt (vals i) (lowerV i)) (FP.fin 0)
  let out2 := massign out1 (fun i => FP.flt (upperV i) (vals i)) (FP.fin 1)
  massign out2 (fun i => FP.feq (denom i) (FP.fin 0)) (FP.fin 0)

/-- util.all_cdf (line 494): cdf of the mixture model, accumulated by
three masked in-place additions: the zero-probability mass for
non-negative samples, the weighted truncated-moderate mass for strictly
positive samples, and the weighted GP mass for samples strictly above the
effective threshold. -/
noncomputable def all_cdf (erf : ℝ → ℝ) {n : ℕ} (samples : Fin n → FP)
    (gpd_stats moderate_stats : Fin n → FP × FP)
    (zero_probs excess_probs effective_threshes actual_threshes : Fin n → FP)
    (moderate_func : String) : Except PyErr (Fin n → FP) :=
  if moderate_func = "lognormal" then
    let out0 := fun _ : Fin n => FP.fin 0
    let out1 := fun i => if FP.fle (FP.fin 0) (samples i)
      then FP.add (out0 i) (zero_probs i) else out0 i
    let moderate_cdf := threshed_lognorm_cdf erf samples
      (fun i => (moderate_stats i).1) (fun i => (moderate_stats i).2)
      none (some effective_threshes)
    let out2 := fun i => if FP.flt (FP.fin 0) (samples i)
      then FP.add (out1 i) (FP.mul (FP.mul (FP.sub (FP.fin 1) (zero_probs i))
        (FP.sub (FP.fin 1) (excess_probs i))) (moderate_cdf i))
      else out1 i
    let excess_cdf := gpd_cdf samples (fun i => (gpd_stats i).1)
      (fun i => (gpd_stats i).2) actual_threshes
    Except.ok (fun i => if FP.flt (effective_threshes i) (samples i)
      then FP.add (out2 i) (FP.mul (FP.mul (FP.sub (FP.fin 1) (zero_probs i))
        (excess_probs i)) (excess_cdf i))
      else out2 i)
  else
    Except.error
      (PyErr.valueError "only lognormal function is supported for non-excess values")

open Classical in
/-- Promotion of a boolean mask entry to the floating-point 0 or 1 that
torch uses when a bool tensor enters arithmetic. -/
noncomputable def boolFP (p : Prop) : FP := if p then FP.fin 1 else FP.fin 0

/-- util.is_zero (line 578): mask of zero samples, or of non-zero
non-NaN samples when flipped.  IEEE not-equal makes NaN entries compare
not-equal to zero, which the flipped branch excludes explicitly. -/
def is_zero {n : ℕ} (samples : Fin n → FP) (flip : Bool) : Fin n → Prop :=
  if flip then fun i => ¬ FP.feq (samples i) (FP.fin 0) ∧ FP.isnan (samples i) = false
  else fun i => FP.feq (samples i) (FP.fin 0)

/-- util.is_above_thresh (line 563): mask of excess samples.  The
unflipped branch uses a non-strict comparison with the threshold while
the flipped branch uses a strict one, both conjoined with strict
positivity. -/
def is_above_thresh {n : ℕ} (samples threshes : Fin n → FP) (flip : Bool) :
    Fin n → Prop :=
  if flip then fun i => FP.flt (samples i) (threshes i) ∧ FP.flt (FP.fin 0) (samples i)
  else fun i => FP.fle (threshes i) (samples i) ∧ FP.flt (FP.fin 0) (samples i)

/-- util.loglik_zero (line 532): gate terms of the zero component, with
NaN added in place at missing samples. -/
noncomputable def loglik_zero {n : ℕ} (samples zero_probs : Fin n → FP) :
    (Fin n → FP) × (Fin n → FP) :=
  let z_bool := is_zero samples false
  let nz_bool := is_zero samples true
  let out_zero := fun i =>
    FP.add (FP.fin 0) (FP.mul (boolFP (z_bool i)) (FP.flog (zero_probs i)))
  let out_nonzero := fun i =>
    FP.add (FP.fin 0)
      (FP.mul (boolFP (nz_bool i)) (FP.flog (FP.sub (FP.fin 1) (zero_probs i))))
  let nan_inds := fun i => FP.isnan (samples i) = true
  (fun i => if nan_inds i then FP.add (out_zero i) FP.nan else out_zero i,
   fun i => if nan_inds i then FP.add (out_nonzero i) FP.nan else out_nonzero i)

/-- util.loglik_above_thresh (line 550): gate terms of the excess
component. -/
noncomputable def loglik_above_thresh {n : ℕ}
    (samples threshes above_thresh_probs : Fin n → FP) :
    (Fin n → FP) × (Fin n → FP) :=
  let t_bool := is_above_thresh samples threshes false
  let nt_bool := is_above_thresh samples threshes true
  (fun i => FP.mul (boolFP (t_bool i)) (FP.flog (above_thresh_probs i)),
   fun i => FP.mul (boolFP (nt_bool i))
     (FP.flog (FP.sub (FP.fin 1) (above_thresh_probs i))))

/-- util.nan_to_num (line 592): in-place replacement of every NaN with
the fill value.  The source default fill is 0. -/
noncomputable def nan_to_num {n : ℕ} (x : Fin n → FP) (fill_val : FP) : Fin n → FP :=
  massign x (fun i => FP.isnan (x i) = true) fill_val

/-- util.nan_transfer (line 600): copies wo_nan onto a fresh zero tensor
and adds NaN in place wherever w_nan is NaN. -/
noncomputable def nan_transfer {n : ℕ} (w_nan wo_nan : Fin n → FP) : Fin n → FP :=
  let out := fun i => FP.add (FP.fin 0) (wo_nan i)
  fun i => if FP.isnan (w_nan i) = true then FP.add (out i) FP.nan else out i

/-- The excesses tensor built inside util.loglik (lines 627 to 630): a
zero tensor receives the sample minus threshold by masked in-place
addition at the strictly-above-threshold cells, and every other cell is
divided in place by zero, turning its zero into NaN. -/
noncomputable def loglik_excesses {n : ℕ} (samples threshes : Fin n → FP) :
    Fin n → FP := fun i =>
  if FP.flt (threshes i) (samples i)
    then FP.add (FP.fin 0) (FP.sub (samples i) (threshes i))
    else FP.div (FP.fin 0) (FP.fin 0)

/-- The nonzeros tensor built inside util.loglik (lines 635 to 637): the
strictly positive non-excess samples on a zero background. -/
noncomputable def loglik_nonzeros {n : ℕ} (samples threshes : Fin n → FP) :
    Fin n → FP := fun i =>
  if FP.flt (FP.fin 0) (samples i) ∧ ¬ FP.flt (threshes i) (samples i)
    then FP.add (FP.fin 0) (samples i)
    else FP.fin 0

/-- The moderate-density term of util.loglik (lines 640 to 645): the
upper-truncated lognormal log density of the nonzeros tensor, with the
cells outside the strictly-positive non-excess mask overwritten by zero
divided by zero, that is NaN. -/
noncomputable def loglik_main {n : ℕ} (erf : ℝ → ℝ)
    (samples threshes mu var : Fin n → FP) : Fin n → FP := fun i =>
  if ¬ (FP.flt (FP.fin 0) (samples i) ∧ ¬ FP.flt (threshes i) (samples i))
    then FP.div (FP.fin 0) (FP.fin 0)
    else (threshed_lognorm erf (loglik_nonzeros samples threshes) threshes
      mu var (1e-6)).2 i

/-- util.loglik (line 610): per-cell log likelihood of the mixture
model.  Each of the six terms is NaN-transferred from the samples,
NaN-scrubbed to zero, summed in source order, and NaN is added back in
place at the missing cells. -/
noncomputable def loglik (erf : ℝ → ℝ) {n : ℕ} (samples : Fin n → FP)
    (gpd_stats moderate_stats : Fin n → FP × FP)
    (zero_probs excess_probs threshes : Fin n → FP) (moderate_func : String) :
    Except PyErr (Fin n → FP) :=
  let nan_inds := fun i => FP.isnan (samples i) = true
  let zl := loglik_zero samples zero_probs
  let tl := loglik_above_thresh samples threshes excess_probs
  let excess_loglik := gpd (loglik_excesses samples threshes)
    (fun i => (gpd_stats i).1) (fun i => (gpd_stats i).2)
  if moderate_func = "lognormal" then
    let main_loglik := loglik_main erf samples threshes
      (fun i => (moderate_stats i).1) (fun i => (moderate_stats i).2)
    let total := fun i =>
      FP.add (FP.add (FP.add (FP.add (FP.add
        (nan_to_num (nan_transfer samples zl.1) (FP.fin 0) i)
        (nan_to_num (nan_transfer samples zl.2) (FP.fin 0) i))
        (nan_to_num (nan_transfer samples tl.2) (FP.fin 0) i))
        (nan_to_num (nan_transfer samples main_loglik) (FP.fin 0) i))
        (nan_to_num (nan_transfer samples tl.1) (FP.fin 0) i))
        (nan_to_num (nan_transfer samples excess_loglik) (FP.fin 0) i)
    Except.ok (fun i => if nan_inds i then FP.add (total i) FP.nan else total i)
  else
    Except.error (PyErr.valueError "only lognormal is supported for non-excess values")

namespace FP

@[simp] theorem add_fin_fin (x y : ℝ) : add (fin x) (fin y) = fin (x + y) := rfl

@[simp] theorem mul_fin_fin (x y : ℝ) : mul (fin x) (fin y) = fin (x * y) := rfl

@[simp] theorem neg_fin (x : ℝ) : neg (fin x) = fin (-x) := rfl

@[simp] theorem sub_fin_fin (x y : ℝ) : sub (fin x) (fin y) = fin (x - y) := by
  simp [sub, add, neg, sub_eq_add_neg]

@[simp] theorem isnan_fin (x : ℝ) : isnan (fin x) = false := rfl

@[simp] theorem isnan_pinf : isnan pinf = false := rfl

@[simp] theorem isnan_ninf : isnan ninf = false := rfl

@[simp] theorem isnan_nan : isnan nan = true := rfl

theorem add_nan_right (x : FP) : add x nan = nan := by cases x <;> rfl

theorem add_fin_zero (x : FP) : add x (fin 0) = x := by
  cases x <;> simp [add]

theorem isnan_add_left {x : FP} (h : isnan x = true) (y : FP) : add x y = nan := by
  cases x <;> simp_all [isnan, add]

theorem notNan_iff {x : FP} : notNan x ↔ x ≠ nan := by
  cases x <;> simp [notNan, isnan]

/-- Adding a finite value to a non-NaN value is non-NaN. -/
theorem notNan_add_fin {x : FP} (h : notNan x) (y : ℝ) : notNan (add x (fin y)) := by
  cases x <;> simp_all [notNan, add, isnan]

/-- Adding a non-NaN value to a finite value is non-NaN. -/
theorem notNan_fin_add {y : FP} (h : notNan y) (x : ℝ) : notNan (add (fin x) y) := by
  cases y <;> simp_all [notNan, add, isnan]

theorem mul_comm_fp (x y : FP) : mul x y = mul y x := by
  cases x <;> cases y <;> simp [mul, mul_comm]

end FP

theorem pos_constraint_default_ok (k : ℝ) :
    pos_constraint k "exp" (1e-2) = Except.ok (pos_constraint_exp k) := rfl

/-- Softplus is strictly positive for positive beta. -/
theorem softplus_pos (x beta : ℝ) (hb : 0 < beta) : 0 < softplus x beta := by
  unfold softplus
  split_ifs with h
  · nlinarith
  · have h1 : (1 : ℝ) < 1 + Real.exp (beta * x) := by
      have := Real.exp_pos (beta * x); linarith
    have h2 : 0 < Real.log (1 + Real.exp (beta * x)) := Real.log_pos h1
    positivity

/-- The un-positivity-constrained upper threshold transform stays
strictly below its threshold. -/
theorem upper_thresh_constraint_lt (x thresh beta : ℝ) (hb : 0 < beta) :
    upper_thresh_constraint x thresh false beta < thresh := by
  simp only [upper_thresh_constraint, Bool.false_eq_true, if_false]
  linarith [softplus_pos (-x + thresh) beta hb]

/-- Softplus at beta one stays below 30 whenever its input does. -/
theorem softplus_beta_one_lt_30 (z : ℝ) (hz : z < 30) : softplus z 1 < 30 := by
  unfold softplus
  split_ifs with h
  · exact hz
  · have hz20 : z ≤ 20 := by nlinarith
    have hexp : Real.exp z ≤ Real.exp 20 := Real.exp_le_exp.mpr hz20
    have h20 : (21 : ℝ) ≤ Real.exp 20 := by linarith [Real.add_one_le_exp (20 : ℝ)]
    have h10 : (11 : ℝ) ≤ Real.exp 10 := by linarith [Real.add_one_le_exp (10 : ℝ)]
    have h30 : Real.exp 30 = Real.exp 20 * Real.exp 10 := by
      rw [← Real.exp_add]; norm_num
    have hlt : 1 + Real.exp (1 * z) < Real.exp 30 := by
      rw [one_mul]; nlinarith
    have hpos : (0 : ℝ) < 1 + Real.exp (1 * z) := by positivity
    have hlog := (Real.log_lt_iff_lt_exp hpos).mpr hlt
    nlinarith [hlog]

/-- C7: lognormal_constraint returns mu unchanged in the first slot and,
for every raw variance input, a constrained variance strictly inside the
open interval (0, 30) in the second slot. -/
theorem lognormal_constraint_mu_id_var_in_0_30 (mu rv : ℝ) :
    (lognormal_constraint mu rv).1 = mu ∧
      0 < (lognormal_constraint mu rv).2 ∧ (lognormal_constraint mu rv).2 < 30 := by
  have hout : 0 < pos_constraint_exp rv := by
    unfold pos_constraint_exp; positivity
  have hvar : (lognormal_constraint mu rv).2 =
      -(softplus (-(pos_constraint_exp rv) + 30) 1) + 30 := rfl
  refine ⟨rfl, ?_, ?_⟩
  · rw [hvar]
    have := softplus_beta_one_lt_30 (-(pos_constraint_exp rv) + 30) (by linarith)
    linarith
  · rw [hvar]
    linarith [softplus_pos (-(pos_constraint_exp rv) + 30) 1 one_pos]

/-- C4: the constrained GP shape, gp_upper_thresh_constraint with
threshold 0.9, never exceeds 0.9, and every negative raw shape passes
through unchanged.  The source calls it with beta equal to 5; the
statement covers every positive beta. -/
theorem gp_shape_constrained (x beta : ℝ) (hb : 0 < beta) :
    gp_upper_thresh_constraint x 0.9 beta ≤ 0.9 ∧
      (x < 0 → gp_upper_thresh_constraint x 0.9 beta = x) := by
  have hu := upper_thresh_constraint_lt x 0.9 beta hb
  have hxw : x = (x / 0.9) * 0.9 := by field_simp
  simp only [gp_upper_thresh_constraint, torch_threshold]
  split_ifs with h1 h2 h3
  · -- raw weight positive and below one: convex blend of the two values
    constructor
    · nlinarith [hu.le, h1.le, h2.le]
    · intro hx0
      nlinarith
  · -- raw weight at least one: the thresholded output is returned
    constructor
    · nlinarith [hu.le]
    · intro hx0
      nlinarith
  · -- raw weight nonpositive: the raw value passes through
    constructor
    · push_neg at h1
      nlinarith
    · intro hx0
      ring_nf
  · -- arithmetically unreachable: minus one is below zero
    constructor
    · norm_num at h3
    · norm_num at h3

/-- Witness for C4 at x equal to minus one and beta equal to 5. -/
theorem gp_shape_constrained_witness :
    (0 : ℝ) < 5 ∧
      (gp_upper_thresh_constraint (-1) 0.9 5 ≤ 0.9 ∧
        ((-1 : ℝ) < 0 → gp_upper_thresh_constraint (-1) 0.9 5 = -1)) :=
  ⟨by norm_num, gp_shape_constrained (-1) 5 (by norm_num)⟩

/-- C3: evaluating all_constraints in continuity mode with the lognormal
moderate density and a supplied thresholds array does not succeed: the
call dies with the TypeError raised by the stale reduction keyword
argument in its internal lognormal call, so the GP scale is never derived
from the moderate density. -/
theorem all_constraints_continuity_raises {n : ℕ}
    (binaries gpd_stats main_stats : Fin n → ℝ × ℝ) (maxis : Fin n → ℝ)
    (th : Fin n → ℝ) :
    (all_constraints binaries gpd_stats main_stats maxis true "lognormal"
        (some th)).1 =
      Except.error (PyErr.typeError
        "lognormal got an unexpected keyword argument reduction") := rfl

/-- C9 as amended: lognormal adds 10 in place to every zero entry of the
samples array of its caller, directly and through threshed_lognorm, and
the mutated entry is no longer zero; the all_constraints continuity path,
by contrast, raises its TypeError before lognormal runs and leaves the
thresholds array of its caller untouched. -/
theorem lognormal_inplace_mutation (erf : ℝ → ℝ) {n : ℕ}
    (samples threshes mu var : Fin n → FP) (eps : ℝ) (i : Fin n)
    (h : samples i = FP.fin 0) {m : ℕ}
    (binaries gpd_stats main_stats : Fin m → ℝ × ℝ) (maxis th : Fin m → ℝ) :
    (lognormal samples mu var).1 i = FP.fin 10 ∧
      (threshed_lognorm erf samples threshes mu var eps).1 i = FP.fin 10 ∧
      FP.fin 10 ≠ FP.fin 0 ∧
      (all_constraints binaries gpd_stats main_stats maxis true "lognormal"
          (some th)).2 = some th := by
  have h1 : (lognormal samples mu var).1 i = FP.fin 10 := by
    simp only [lognormal, h]
    have : FP.feq (FP.fin 0) (FP.fin 0) := by simp [FP.feq]
    rw [if_pos this]
    simp [FP.add]
  refine ⟨h1, h1, ?_, rfl⟩
  intro hc
  have : (10 : ℝ) = 0 := by injection hc
  norm_num at this

/-- Witness for C9 at a one-cell zero sample array. -/
theorem lognormal_inplace_mutation_witness :
    (fun _ : Fin 1 => FP.fin 0) 0 = FP.fin 0 ∧
      ((lognormal (fun _ : Fin 1 => FP.fin 0) (fun _ => FP.fin 0)
          (fun _ => FP.fin 1)).1 0 = FP.fin 10 ∧
        (threshed_lognorm id (fun _ : Fin 1 => FP.fin 0) (fun _ => FP.fin 1)
            (fun _ => FP.fin 0) (fun _ => FP.fin 1) 1e-6).1 0 = FP.fin 10 ∧
        FP.fin 10 ≠ FP.fin 0 ∧
        (all_constraints (n := 1) (fun _ => ((0 : ℝ), 0)) (fun _ => ((0 : ℝ), 0))
            (fun _ => ((0 : ℝ), 0)) (fun _ => (0 : ℝ)) true "lognormal"
            (some (fun _ => (0 : ℝ)))).2 = some (fun _ => (0 : ℝ))) :=
  ⟨rfl, lognormal_inplace_mutation id (fun _ => FP.fin 0) (fun _ => FP.fin 1)
    (fun _ => FP.fin 0) (fun _ => FP.fin 1) 1e-6 0 rfl
    (fun _ => ((0 : ℝ), 0)) (fun _ => ((0 : ℝ), 0)) (fun _ => ((0 : ℝ), 0))
    (fun _ => (0 : ℝ)) (fun _ => (0 : ℝ))⟩

/-- C9 counterexample: with a one-cell thresholds array holding exactly
zero, the all_constraints continuity call leaves the zero in place, where
the claim says every zero entry of the array passed as samples to
lognormal has 10 added to it. -/
theorem all_constraints_thresholds_zero_persists :
    (all_constraints (n := 1) (fun _ => ((0 : ℝ), 0)) (fun _ => ((0 : ℝ), 0))
        (fun _ => ((0 : ℝ), 0)) (fun _ => (0 : ℝ)) true "lognormal"
        (some (fun _ => (0 : ℝ)))).2 = some (fun _ => (0 : ℝ)) := rfl

/-- C8 counterexample: a sample exactly equal to zero with a negative
threshold receives label 2, not the label 0 the claim assigns to every
position where the sample is exactly zero. -/
theorem compute_class_labels_zero_label_overridden :
    compute_class_labels (n := 1) (fun _ => FP.fin 0) (fun _ => FP.fin (-1)) 0 =
        FP.fin 2 ∧
      ¬ compute_class_labels (n := 1) (fun _ => FP.fin 0) (fun _ => FP.fin (-1)) 0 =
        FP.fin 0 := by
  have h2 : compute_class_labels (n := 1) (fun _ => FP.fin 0)
      (fun _ => FP.fin (-1)) 0 = FP.fin 2 := by
    simp only [compute_class_labels, massign, FP.isnan, FP.feq, FP.flt]
    norm_num
  refine ⟨h2, ?_⟩
  rw [h2]
  intro hc
  have : (2 : ℝ) = 0 := by injection hc
  norm_num at this

/-- C8 as amended: the label is NaN exactly at missing samples, and on
non-missing cells the strictly-above-threshold label 2 takes precedence
over the exactly-zero label 0, which takes precedence over the default
label 1; in particular a zero sample is labelled 0 only when it does not
strictly exceed its threshold. -/
theorem compute_class_labels_characterization {n : ℕ} (y threshes : Fin n → FP)
    (i : Fin n) :
    compute_class_labels y threshes i =
      if FP.isnan (y i) = true then FP.nan
      else if FP.flt (threshes i) (y i) then FP.fin 2
      else if FP.feq (y i) (FP.fin 0) then FP.fin 0
      else FP.fin 1 := by
  simp only [compute_class_labels, massign]
  by_cases hn : FP.isnan (y i) = true
  · simp [hn]
  · simp only [hn, if_false, if_neg hn]
    split_ifs <;> simp_all

/-- C5: with every threshold equal to positive infinity, all_mean equals
the pure hurdle-model mean, the GP term being skipped entirely, and the
result does not depend on the GP parameter tensor. -/
theorem all_mean_hurdle_when_thresh_inf (erf : ℝ → ℝ) {n : ℕ}
    (gpd_stats gpd_stats2 moderate_stats : Fin n → FP × FP)
    (zero_probs excess_probs threshes : Fin n → FP)
    (h : ∀ i, threshes i = FP.pinf) :
    all_mean erf gpd_stats moderate_stats zero_probs excess_probs threshes
        "lognormal" =
      Except.ok (hurdle_mean erf moderate_stats zero_probs excess_probs threshes) ∧
    all_mean erf gpd_stats moderate_stats zero_probs excess_probs threshes
        "lognormal" =
      all_mean erf gpd_stats2 moderate_stats zero_probs excess_probs threshes
        "lognormal" := by
  have hinf : ∀ i, FP.isinf (threshes i) = true := fun i => by rw [h i]; rfl
  have key : ∀ g : Fin n → FP × FP,
      all_mean erf g moderate_stats zero_probs excess_probs threshes "lognormal" =
        Except.ok (hurdle_mean erf moderate_stats zero_probs excess_probs threshes) := by
    intro g
    unfold all_mean
    rw [if_pos rfl, if_pos hinf]
    congr 1
    funext i
    simp only [hurdle_mean]
    rw [FP.add_fin_zero]
    exact congrArg (FP.add (FP.fin 0)) (FP.mul_comm_fp _ _)
  exact ⟨key gpd_stats, (key gpd_stats).trans (key gpd_stats2).symm⟩

theorem zero_add_fp (x : FP) : FP.add (FP.fin 0) x = x := by
  cases x <;> simp [FP.add]

/-- C6: the pearsonr of the source never returns a value, for any fuel
bound and any pair of input arrays; in particular it does not return the
Pearson correlation restricted to the jointly non-NaN entries that its
own (unused) no_nans mask selects. -/
theorem pearsonr_never_returns {n : ℕ} (fuel : ℕ) (a b : Fin n → FP) :
    pearsonr_fuel fuel a b = none := by
  induction fuel with
  | zero => rfl
  | succ k ih => exact ih

theorem div_neg_one_zero : FP.div (FP.fin (-1)) (FP.fin 0) = FP.ninf := by
  simp [FP.div]

theorem flt_nan_right (x : FP) : ¬ FP.flt x FP.nan := by
  cases x <;> simp [FP.flt]

theorem eq_nan_of_isnan {x : FP} (h : FP.isnan x = true) : x = FP.nan := by
  cases x <;> simp_all [FP.isnan]

theorem flog_fin_pos {r : ℝ} (h : 0 < r) : FP.flog (FP.fin r) = FP.fin (Real.log r) := by
  simp only [FP.flog]
  rw [if_neg (not_lt.mpr h.le), if_neg h.ne']

theorem div_fin_fin {r1 r2 : ℝ} (h : r2 ≠ 0) :
    FP.div (FP.fin r1) (FP.fin r2) = FP.fin (r1 / r2) := by
  simp only [FP.div]
  rw [if_neg h]

theorem fpow_fin_two (b : ℝ) : FP.fpow (FP.fin b) (FP.fin 2) = FP.fin (b ^ 2) := by
  unfold FP.fpow
  rw [if_neg (by simp [FP.feq])]
  by_cases hb1 : b = 1
  · subst hb1
    rw [if_pos (by simp [FP.feq])]
    norm_num
  · rw [if_neg (by simp [FP.feq, hb1])]
    rcases lt_trichotomy b 0 with hb | hb | hb
    · have hnot : ¬ 0 < b := by linarith
      have hne : ¬ b = 0 := by linarith
      simp only [hnot, if_false, hne, if_false]
      have hfr : Int.fract (2 : ℝ) = 0 := by
        rw [show (2 : ℝ) = ((2 : ℤ) : ℝ) by norm_num, Int.fract_intCast]
      rw [if_pos hfr]
      have hfl : ⌊(2 : ℝ)⌋ = 2 := by
        rw [show (2 : ℝ) = ((2 : ℤ) : ℝ) by norm_num, Int.floor_intCast]
      rw [hfl]
      congr 1
    · subst hb
      simp only [lt_irrefl, if_false, if_pos rfl]
      rw [if_pos (by norm_num)]
      norm_num
    · simp only [hb, if_true]
      congr 1
      have h2 : Real.rpow b 2 = b ^ (2 : ℕ) := by
        rw [show (2 : ℝ) = ((2 : ℕ) : ℝ) by norm_num]
        exact Real.rpow_natCast b 2
      rw [h2]

theorem fpow_fin_half {v : ℝ} (hv : 0 < v) :
    FP.fpow (FP.fin v) (FP.fin 0.5) = FP.fin (Real.rpow v 0.5) := by
  unfold FP.fpow
  rw [if_neg (by simp [FP.feq]; norm_num)]
  by_cases hv1 : v = 1
  · subst hv1
    rw [if_pos (by simp [FP.feq])]
    congr 1
    exact (Real.one_rpow 0.5).symm
  · rw [if_neg (by simp [FP.feq, hv1])]
    simp only [hv, if_true]

theorem scrub_val {n : ℕ} (samples V : Fin n → FP) (i : Fin n)
    (hs : FP.isnan (samples i) = false) (hv : FP.isnan (V i) = false) :
    nan_to_num (nan_transfer samples V) (FP.fin 0) i = V i := by
  have ht : nan_transfer samples V i = V i := by
    simp only [nan_transfer]
    rw [if_neg (by simp [hs]), zero_add_fp]
  simp only [nan_to_num, massign]
  rw [if_neg (by simp [ht, hv]), ht]

theorem scrub_nanval {n : ℕ} (samples V : Fin n → FP) (i : Fin n)
    (hv : FP.isnan (V i) = true) :
    nan_to_num (nan_transfer samples V) (FP.fin 0) i = FP.fin 0 := by
  have ht : nan_transfer samples V i = FP.nan := by
    simp only [nan_transfer]
    rw [eq_nan_of_isnan hv]
    split_ifs
    · exact FP.add_nan_right _
    · exact FP.add_nan_right _
  simp only [nan_to_num, massign]
  rw [if_pos (by simp [ht])]

theorem scrub_sample_nan {n : ℕ} (samples V : Fin n → FP) (i : Fin n)
    (hs : FP.isnan (samples i) = true) :
    nan_to_num (nan_transfer samples V) (FP.fin 0) i = FP.fin 0 := by
  have ht : nan_transfer samples V i = FP.nan := by
    simp only [nan_transfer]
    rw [if_pos (by simp [hs])]
    exact FP.add_nan_right _
  simp only [nan_to_num, massign]
  rw [if_pos (by simp [ht])]

theorem scrub_notNan {n : ℕ} (samples V : Fin n → FP) (i : Fin n) :
    FP.isnan (nan_to_num (nan_transfer samples V) (FP.fin 0) i) = false := by
  simp only [nan_to_num, massign]
  split_ifs with h
  · rfl
  · simpa using h

theorem isFin_add {a b : FP} (ha : FP.isFin a = true) (hb : FP.isFin b = true) :
    FP.isFin (FP.add a b) = true := by
  cases a <;> cases b <;> simp_all [FP.isFin, FP.add]

theorem notNan_add_of_fin_left {a b : FP} (ha : FP.isFin a = true)
    (hb : FP.isnan b = false) : FP.isnan (FP.add a b) = false := by
  cases a <;> cases b <;> simp_all [FP.isFin, FP.add, FP.isnan]

theorem notNan_add_fin_right {a : FP} (ha : FP.isnan a = false) (r : ℝ) :
    FP.isnan (FP.add a (FP.fin r)) = false := by
  cases a <;> simp_all [FP.add, FP.isnan]

theorem isFin_of_not_nan_not_inf {a : FP} (h1 : FP.isnan a = false)
    (h2 : FP.isFin a = false) : a = FP.pinf ∨ a = FP.ninf := by
  cases a <;> simp_all [FP.isnan, FP.isFin]

theorem div_zero_zero_nan : FP.div (FP.fin 0) (FP.fin 0) = FP.nan := by
  simp [FP.div]

theorem boolFP_cases (p : Prop) : boolFP p = FP.fin 1 ∨ boolFP p = FP.fin 0 := by
  by_cases hp : p
  · left
    simp only [boolFP]
    rw [if_pos hp]
  · right
    simp only [boolFP]
    rw [if_neg hp]

theorem boolFP_neg {p : Prop} (hp : ¬ p) : boolFP p = FP.fin 0 := by
  simp only [boolFP]
  rw [if_neg hp]

theorem isFin_exists {b : FP} (h : FP.isFin b = true) : ∃ r, b = FP.fin r := by
  cases b <;> simp_all [FP.isFin]

/-- gpd marks a cell NaN whenever its raw sample there is NaN. -/
theorem gpd_nan_of_sample_nan {n : ℕ} (raw xi sigma : Fin n → FP) (i : Fin n)
    (h : FP.isnan (raw i) = true) : gpd raw xi sigma i = FP.nan := by
  have hmask : ¬ (FP.isnan (raw i) = false ∧ FP.isnan (xi i) = false) := by
    rintro ⟨hc, -⟩
    rw [h] at hc
    simp at hc
  simp only [gpd]
  rw [if_pos hmask]

/-- A scrubbed gate term of the form mask times a finite log value is
finite. -/
theorem isFin_scrub_gate {n : ℕ} (samples V : Fin n → FP) (i : Fin n)
    (hs : FP.isnan (samples i) = false) (p : Prop) (r : ℝ)
    (hV : V i = FP.mul (boolFP p) (FP.fin r)) :
    FP.isFin (nan_to_num (nan_transfer samples V) (FP.fin 0) i) = true := by
  have hfin : FP.isnan (V i) = false := by
    rcases boolFP_cases p with hb | hb <;> rw [hV, hb] <;> rfl
  rw [scrub_val _ _ _ hs hfin, hV]
  rcases boolFP_cases p with hb | hb <;> rw [hb] <;> rfl

/-- A scrubbed gate term on a zero background is finite. -/
theorem isFin_scrub_gate0 {n : ℕ} (samples V : Fin n → FP) (i : Fin n)
    (hs : FP.isnan (samples i) = false) (p : Prop) (r : ℝ)
    (hV : V i = FP.add (FP.fin 0) (FP.mul (boolFP p) (FP.fin r))) :
    FP.isFin (nan_to_num (nan_transfer samples V) (FP.fin 0) i) = true := by
  have hfin : FP.isnan (V i) = false := by
    rcases boolFP_cases p with hb | hb <;> rw [hV, hb] <;> rfl
  rw [scrub_val _ _ _ hs hfin, hV]
  rcases boolFP_cases p with hb | hb <;> rw [hb] <;> rfl

/-- A scrubbed gate term whose mask is false is exactly zero. -/
theorem scrub_gate_zero {n : ℕ} (samples V : Fin n → FP) (i : Fin n)
    (hs : FP.isnan (samples i) = false) (p : Prop) (r : ℝ) (hp : ¬ p)
    (hV : V i = FP.mul (boolFP p) (FP.fin r)) :
    nan_to_num (nan_transfer samples V) (FP.fin 0) i = FP.fin 0 := by
  have hval : V i = FP.fin (0 * r) := by
    rw [hV, boolFP_neg hp]
    rfl
  rw [scrub_val _ _ _ hs (by rw [hval]; rfl), hval]
  norm_num

/-- A scrubbed gate term on a zero background whose mask is false is
exactly zero. -/
theorem scrub_gate0_zero {n : ℕ} (samples V : Fin n → FP) (i : Fin n)
    (hs : FP.isnan (samples i) = false) (p : Prop) (r : ℝ) (hp : ¬ p)
    (hV : V i = FP.add (FP.fin 0) (FP.mul (boolFP p) (FP.fin r))) :
    nan_to_num (nan_transfer samples V) (FP.fin 0) i = FP.fin 0 := by
  have hval : V i = FP.fin (0 + 0 * r) := by
    rw [hV, boolFP_neg hp]
    rfl
  rw [scrub_val _ _ _ hs (by rw [hval]; rfl), hval]
  norm_num

/-- Value of the zero-gate term of loglik_zero at a non-missing cell. -/
theorem loglik_zero_fst_at {n : ℕ} (samples zero_probs : Fin n → FP) (i : Fin n)
    (hn : ¬ FP.isnan (samples i) = true) :
    (loglik_zero samples zero_probs).1 i =
      FP.add (FP.fin 0) (FP.mul (boolFP (FP.feq (samples i) (FP.fin 0)))
        (FP.flog (zero_probs i))) := by
  have h0 : (loglik_zero samples zero_probs).1 i =
      (if FP.isnan (samples i) = true
        then FP.add (FP.add (FP.fin 0)
          (FP.mul (boolFP (FP.feq (samples i) (FP.fin 0)))
            (FP.flog (zero_probs i)))) FP.nan
        else FP.add (FP.fin 0)
          (FP.mul (boolFP (FP.feq (samples i) (FP.fin 0)))
            (FP.flog (zero_probs i)))) := rfl
  rw [h0, if_neg hn]

/-- Value of the nonzero-gate term of loglik_zero at a non-missing
cell. -/
theorem loglik_zero_snd_at {n : ℕ} (samples zero_probs : Fin n → FP) (i : Fin n)
    (hn : ¬ FP.isnan (samples i) = true) :
    (loglik_zero samples zero_probs).2 i =
      FP.add (FP.fin 0) (FP.mul (boolFP (¬ FP.feq (samples i) (FP.fin 0) ∧
        FP.isnan (samples i) = false))
        (FP.flog (FP.sub (FP.fin 1) (zero_probs i)))) := by
  have h0 : (loglik_zero samples zero_probs).2 i =
      (if FP.isnan (samples i) = true
        then FP.add (FP.add (FP.fin 0)
          (FP.mul (boolFP (¬ FP.feq (samples i) (FP.fin 0) ∧
            FP.isnan (samples i) = false))
            (FP.flog (FP.sub (FP.fin 1) (zero_probs i))))) FP.nan
        else FP.add (FP.fin 0)
          (FP.mul (boolFP (¬ FP.feq (samples i) (FP.fin 0) ∧
            FP.isnan (samples i) = false))
            (FP.flog (FP.sub (FP.fin 1) (zero_probs i))))) := rfl
  rw [h0, if_neg hn]

/-- Value of the excess-gate term of loglik_above_thresh. -/
theorem loglik_above_thresh_fst_at {n : ℕ}
    (samples threshes above_thresh_probs : Fin n → FP) (i : Fin n) :
    (loglik_above_thresh samples threshes above_thresh_probs).1 i =
      FP.mul (boolFP (FP.fle (threshes i) (samples i) ∧
        FP.flt (FP.fin 0) (samples i))) (FP.flog (above_thresh_probs i)) := rfl

/-- Value of the non-excess-gate term of loglik_above_thresh. -/
theorem loglik_above_thresh_snd_at {n : ℕ}
    (samples threshes above_thresh_probs : Fin n → FP) (i : Fin n) :
    (loglik_above_thresh samples threshes above_thresh_probs).2 i =
      FP.mul (boolFP (FP.flt (samples i) (threshes i) ∧
        FP.flt (FP.fin 0) (samples i)))
        (FP.flog (FP.sub (FP.fin 1) (above_thresh_probs i))) := rfl

/-- C1: with gating probabilities strictly inside the unit interval,
positive GP scale and positive lognormal variance, the per-cell total of
loglik is NaN at exactly the cells whose sample is NaN, and each
scrubbed component term contributes exactly zero at every non-missing
cell where it does not apply. -/
theorem loglik_nan_iff_sample_nan (erf : ℝ → ℝ) {n : ℕ}
    (samples : Fin n → FP) (gpd_stats moderate_stats : Fin n → FP × FP)
    (zero_probs excess_probs threshes : Fin n → FP)
    (hzp : ∀ i, ∃ r, zero_probs i = FP.fin r ∧ 0 < r ∧ r < 1)
    (hep : ∀ i, ∃ r, excess_probs i = FP.fin r ∧ 0 < r ∧ r < 1)
    (hsig : ∀ i, ∃ s, (gpd_stats i).2 = FP.fin s ∧ 0 < s)
    (hvar : ∀ i, ∃ w, (moderate_stats i).2 = FP.fin w ∧ 0 < w) :
    ∀ out, loglik erf samples gpd_stats moderate_stats zero_probs excess_probs
        threshes "lognormal" = Except.ok out →
      (∀ i, (FP.isnan (out i) = true ↔ FP.isnan (samples i) = true)) ∧
      (∀ i, FP.isnan (samples i) = false →
        ((¬ FP.feq (samples i) (FP.fin 0) →
          nan_to_num (nan_transfer samples (loglik_zero samples zero_probs).1)
            (FP.fin 0) i = FP.fin 0) ∧
         (FP.feq (samples i) (FP.fin 0) →
          nan_to_num (nan_transfer samples (loglik_zero samples zero_probs).2)
            (FP.fin 0) i = FP.fin 0) ∧
         (¬ (FP.fle (threshes i) (samples i) ∧ FP.flt (FP.fin 0) (samples i)) →
          nan_to_num (nan_transfer samples
            (loglik_above_thresh samples threshes excess_probs).1)
            (FP.fin 0) i = FP.fin 0) ∧
         (¬ (FP.flt (samples i) (threshes i) ∧ FP.flt (FP.fin 0) (samples i)) →
          nan_to_num (nan_transfer samples
            (loglik_above_thresh samples threshes excess_probs).2)
            (FP.fin 0) i = FP.fin 0) ∧
         (¬ (FP.flt (FP.fin 0) (samples i) ∧ ¬ FP.flt (threshes i) (samples i)) →
          nan_to_num (nan_transfer samples
            (loglik_main erf samples threshes
              (fun j => (moderate_stats j).1) (fun j => (moderate_stats j).2)))
            (FP.fin 0) i = FP.fin 0) ∧
         (¬ FP.flt (threshes i) (samples i) →
          nan_to_num (nan_transfer samples
            (gpd (loglik_excesses samples threshes)
              (fun j => (gpd_stats j).1) (fun j => (gpd_stats j).2)))
            (FP.fin 0) i = FP.fin 0))) := by
  intro out hout
  simp only [loglik, eq_self_iff_true, if_true, Except.ok.injEq] at hout
  subst hout
  constructor
  · intro i
    by_cases hn : FP.isnan (samples i) = true
    · simp only [if_pos hn, FP.add_nan_right]
      simp [hn]
    · have hs' : FP.isnan (samples i) = false := by
        revert hn
        cases FP.isnan (samples i) <;> simp
      simp only [if_neg hn]
      obtain ⟨rz, hrz, hrz0, hrz1⟩ := hzp i
      obtain ⟨re, hre, hre0, hre1⟩ := hep i
      have g1 : FP.isFin (nan_to_num (nan_transfer samples
          (loglik_zero samples zero_probs).1) (FP.fin 0) i) = true :=
        isFin_scrub_gate0 samples _ i hs' _ (Real.log rz)
          (by rw [loglik_zero_fst_at samples zero_probs i hn, hrz, flog_fin_pos hrz0])
      have g2 : FP.isFin (nan_to_num (nan_transfer samples
          (loglik_zero samples zero_probs).2) (FP.fin 0) i) = true :=
        isFin_scrub_gate0 samples _ i hs' _ (Real.log (1 - rz))
          (by rw [loglik_zero_snd_at samples zero_probs i hn, hrz, FP.sub_fin_fin,
            flog_fin_pos (by linarith)])
      have g3 : FP.isFin (nan_to_num (nan_transfer samples
          (loglik_above_thresh samples threshes excess_probs).2) (FP.fin 0) i)
          = true :=
        isFin_scrub_gate samples _ i hs' _ (Real.log (1 - re))
          (by rw [loglik_above_thresh_snd_at, hre, FP.sub_fin_fin,
            flog_fin_pos (by linarith)])
      have g5 : FP.isFin (nan_to_num (nan_transfer samples
          (loglik_above_thresh samples threshes excess_probs).1) (FP.fin 0) i)
          = true :=
        isFin_scrub_gate samples _ i hs' _ (Real.log re)
          (by rw [loglik_above_thresh_fst_at, hre, flog_fin_pos hre0])
      have m4 : FP.isnan (nan_to_num (nan_transfer samples
          (loglik_main erf samples threshes (fun j => (moderate_stats j).1)
            (fun j => (moderate_stats j).2))) (FP.fin 0) i) = false :=
        scrub_notNan _ _ _
      have m6 : FP.isnan (nan_to_num (nan_transfer samples
          (gpd (loglik_excesses samples threshes) (fun j => (gpd_stats j).1)
            (fun j => (gpd_stats j).2))) (FP.fin 0) i) = false :=
        scrub_notNan _ _ _
      have hdisj : ¬ FP.isFin (nan_to_num (nan_transfer samples
          (loglik_main erf samples threshes (fun j => (moderate_stats j).1)
            (fun j => (moderate_stats j).2))) (FP.fin 0) i) = true →
          nan_to_num (nan_transfer samples
            (gpd (loglik_excesses samples threshes) (fun j => (gpd_stats j).1)
              (fun j => (gpd_stats j).2))) (FP.fin 0) i = FP.fin 0 := by
        intro hnf
        by_cases hmn : FP.isnan (loglik_main erf samples threshes
            (fun j => (moderate_stats j).1) (fun j => (moderate_stats j).2) i)
            = true
        · rw [scrub_nanval _ _ _ hmn] at hnf
          simp [FP.isFin] at hnf
        · have hmnf : FP.isnan (loglik_main erf samples threshes
              (fun j => (moderate_stats j).1) (fun j => (moderate_stats j).2) i)
              = false := by
            revert hmn
            cases FP.isnan (loglik_main erf samples threshes
              (fun j => (moderate_stats j).1) (fun j => (moderate_stats j).2) i) <;>
              simp
          rw [scrub_val _ _ _ hs' hmnf] at hnf
          by_cases hnz : (FP.flt (FP.fin 0) (samples i) ∧
              ¬ FP.flt (threshes i) (samples i))
          · have eE : loglik_excesses samples threshes i = FP.nan := by
              simp only [loglik_excesses]
              rw [if_neg hnz.2, div_zero_zero_nan]
            exact scrub_nanval _ _ _
              (by rw [gpd_nan_of_sample_nan _ _ _ i (by rw [eE]; rfl)]; rfl)
          · have hmv : loglik_main erf samples threshes
                (fun j => (moderate_stats j).1) (fun j => (moderate_stats j).2) i
                = FP.nan := by
              simp only [loglik_main]
              rw [if_pos hnz, div_zero_zero_nan]
            rw [hmv] at hmnf
            simp at hmnf
      have h12 := isFin_add g1 g2
      have h123 := isFin_add h12 g3
      by_cases hf : FP.isFin (nan_to_num (nan_transfer samples
          (loglik_main erf samples threshes (fun j => (moderate_stats j).1)
            (fun j => (moderate_stats j).2))) (FP.fin 0) i) = true
      · have h1234 := isFin_add h123 hf
        have h12345 := isFin_add h1234 g5
        have hfinal := notNan_add_of_fin_left h12345 m6
        rw [hfinal, hs']
      · have hS6 := hdisj hf
        obtain ⟨r5, hr5⟩ := isFin_exists g5
        have h123m := notNan_add_of_fin_left h123 m4
        have h12345 : FP.isnan (FP.add (FP.add (FP.add (FP.add
            (nan_to_num (nan_transfer samples
              (loglik_zero samples zero_probs).1) (FP.fin 0) i)
            (nan_to_num (nan_transfer samples
              (loglik_zero samples zero_probs).2) (FP.fin 0) i))
            (nan_to_num (nan_transfer samples
              (loglik_above_thresh samples threshes excess_probs).2) (FP.fin 0) i))
            (nan_to_num (nan_transfer samples
              (loglik_main erf samples threshes (fun j => (moderate_stats j).1)
                (fun j => (moderate_stats j).2))) (FP.fin 0) i))
            (nan_to_num (nan_transfer samples
              (loglik_above_thresh samples threshes excess_probs).1) (FP.fin 0) i))
            = false := by
          rw [hr5]
          exact notNan_add_fin_right h123m r5
        have hfinal : FP.isnan (FP.add (FP.add (FP.add (FP.add (FP.add
            (nan_to_num (nan_transfer samples
              (loglik_zero samples zero_probs).1) (FP.fin 0) i)
            (nan_to_num (nan_transfer samples
              (loglik_zero samples zero_probs).2) (FP.fin 0) i))
            (nan_to_num (nan_transfer samples
              (loglik_above_thresh samples threshes excess_probs).2) (FP.fin 0) i))
            (nan_to_num (nan_transfer samples
              (loglik_main erf samples threshes (fun j => (moderate_stats j).1)
                (fun j => (moderate_stats j).2))) (FP.fin 0) i))
            (nan_to_num (nan_transfer samples
              (loglik_above_thresh samples threshes excess_probs).1) (FP.fin 0) i))
            (nan_to_num (nan_transfer samples
              (gpd (loglik_excesses samples threshes) (fun j => (gpd_stats j).1)
                (fun j => (gpd_stats j).2))) (FP.fin 0) i)) = false := by
          rw [hS6]
          exact notNan_add_fin_right h12345 0
        rw [hfinal, hs']
  · intro i hs'
    have hn : ¬ FP.isnan (samples i) = true := by simp [hs']
    obtain ⟨rz, hrz, hrz0, hrz1⟩ := hzp i
    obtain ⟨re, hre, hre0, hre1⟩ := hep i
    refine ⟨?_, ?_, ?_, ?_, ?_, ?_⟩
    · intro hp
      exact scrub_gate0_zero samples _ i hs' _ (Real.log rz) hp
        (by rw [loglik_zero_fst_at samples zero_probs i hn, hrz, flog_fin_pos hrz0])
    · intro hp
      exact scrub_gate0_zero samples _ i hs'
        (¬ FP.feq (samples i) (FP.fin 0) ∧ FP.isnan (samples i) = false)
        (Real.log (1 - rz)) (fun hc => hc.1 hp)
        (by rw [loglik_zero_snd_at samples zero_probs i hn, hrz, FP.sub_fin_fin,
          flog_fin_pos (by linarith)])
    · intro hp
      exact scrub_gate_zero samples _ i hs' _ (Real.log re) hp
        (by rw [loglik_above_thresh_fst_at, hre, flog_fin_pos hre0])
    · intro hp
      exact scrub_gate_zero samples _ i hs' _ (Real.log (1 - re)) hp
        (by rw [loglik_above_thresh_snd_at, hre, FP.sub_fin_fin,
          flog_fin_pos (by linarith)])
    · intro hp
      refine scrub_nanval _ _ _ ?_
      have hmv : loglik_main erf samples threshes
          (fun j => (moderate_stats j).1) (fun j => (moderate_stats j).2) i
          = FP.nan := by
        simp only [loglik_main]
        rw [if_pos hp, div_zero_zero_nan]
      rw [hmv]
      rfl
    · intro hp
      refine scrub_nanval _ _ _ ?_
      have eE : loglik_excesses samples threshes i = FP.nan := by
        simp only [loglik_excesses]
        rw [if_neg hp, div_zero_zero_nan]
      rw [gpd_nan_of_sample_nan _ _ _ i (by rw [eE]; rfl)]
      rfl

/-- Witness for C1 on a one-cell batch with a NaN sample, probabilities
one half, GP scale one and variance one: the sole cell of the output is
NaN exactly because the sample is. -/
theorem loglik_nan_iff_sample_nan_witness :
    ((∀ i : Fin 1, ∃ r, (fun _ : Fin 1 => FP.fin (1 / 2)) i = FP.fin r ∧
        0 < r ∧ r < 1) ∧
      (∀ i : Fin 1, ∃ s, ((fun _ : Fin 1 => (FP.fin 0, FP.fin 1)) i).2 = FP.fin s ∧
        0 < s) ∧
      (∀ i : Fin 1, ∃ w, ((fun _ : Fin 1 => (FP.fin 0, FP.fin 1)) i).2 = FP.fin w ∧
        0 < w)) ∧
    (∀ out, loglik (fun _ => 0) (fun _ : Fin 1 => FP.nan)
        (fun _ => (FP.fin 0, FP.fin 1)) (fun _ => (FP.fin 0, FP.fin 1))
        (fun _ => FP.fin (1 / 2)) (fun _ => FP.fin (1 / 2))
        (fun _ => FP.fin 10) "lognormal" = Except.ok out →
      ∀ i, (FP.isnan (out i) = true ↔
        FP.isnan ((fun _ : Fin 1 => FP.nan) i) = true)) :=
  ⟨⟨fun _ => ⟨1 / 2, rfl, by norm_num, by norm_num⟩,
    fun _ => ⟨1, rfl, by norm_num⟩, fun _ => ⟨1, rfl, by norm_num⟩⟩,
   fun out h =>
    ((loglik_nan_iff_sample_nan (fun _ => 0) (fun _ : Fin 1 => FP.nan)
      (fun _ => (FP.fin 0, FP.fin 1)) (fun _ => (FP.fin 0, FP.fin 1))
      (fun _ => FP.fin (1 / 2)) (fun _ => FP.fin (1 / 2)) (fun _ => FP.fin 10)
      (fun _ => ⟨1 / 2, rfl, by norm_num, by norm_num⟩)
      (fun _ => ⟨1 / 2, rfl, by norm_num, by norm_num⟩)
      (fun _ => ⟨1, rfl, by norm_num⟩)
      (fun _ => ⟨1, rfl, by norm_num⟩)) out h).1⟩

/-- C2 counterexample: with sample 5 exactly at its threshold 5 and
excess probability one third, the excess-gate term of
loglik_above_thresh is log of one third, which is nonzero, and the
non-excess-gate term is zero: the tie goes to the excess gate (the
unflipped is_above_thresh mask uses a non-strict comparison), not to the
non-excess gate the claim prescribes. -/
theorem loglik_above_thresh_tie_to_excess_gate :
    (loglik_above_thresh (fun _ : Fin 1 => FP.fin 5) (fun _ => FP.fin 5)
        (fun _ => FP.fin (1 / 3))).1 0 ≠ FP.fin 0 ∧
    (loglik_above_thresh (fun _ : Fin 1 => FP.fin 5) (fun _ => FP.fin 5)
        (fun _ => FP.fin (1 / 3))).2 0 = FP.fin 0 := by
  have hp : FP.fle (FP.fin 5) (FP.fin 5) ∧ FP.flt (FP.fin 0) (FP.fin 5) := by
    refine ⟨Or.inr ?_, ?_⟩
    · show (5 : ℝ) = 5
      rfl
    · show (0 : ℝ) < 5
      norm_num
  have hnp : ¬ (FP.flt (FP.fin 5) (FP.fin 5) ∧ FP.flt (FP.fin 0) (FP.fin 5)) := by
    rintro ⟨h5, -⟩
    exact absurd (show (5 : ℝ) < 5 from h5) (lt_irrefl 5)
  constructor
  · have h1 : (loglik_above_thresh (fun _ : Fin 1 => FP.fin 5) (fun _ => FP.fin 5)
        (fun _ => FP.fin (1 / 3))).1 0 =
        FP.mul (boolFP (FP.fle (FP.fin 5) (FP.fin 5) ∧ FP.flt (FP.fin 0) (FP.fin 5)))
          (FP.flog (FP.fin (1 / 3))) := rfl
    rw [h1, flog_fin_pos (by norm_num)]
    simp only [boolFP]
    rw [if_pos hp, FP.mul_fin_fin]
    intro hc
    have hlog : (1 : ℝ) * Real.log (1 / 3) = 0 := by injection hc
    have hneg : Real.log (1 / 3) < 0 := Real.log_neg (by norm_num) (by norm_num)
    nlinarith
  · have h2 : (loglik_above_thresh (fun _ : Fin 1 => FP.fin 5) (fun _ => FP.fin 5)
        (fun _ => FP.fin (1 / 3))).2 0 =
        FP.mul (boolFP (FP.flt (FP.fin 5) (FP.fin 5) ∧ FP.flt (FP.fin 0) (FP.fin 5)))
          (FP.flog (FP.sub (FP.fin 1) (FP.fin (1 / 3)))) := rfl
    rw [h2, FP.sub_fin_fin, flog_fin_pos (by norm_num)]
    simp only [boolFP]
    rw [if_neg hnp, FP.mul_fin_fin, zero_mul]

/-- C2 as amended: in loglik a positive finite sample exactly equal to
its threshold is excess for the gate terms, whose is_above_thresh mask
compares non-strictly, but non-excess for the density terms, whose masks
compare strictly: its scrubbed excess-gate term is log of the excess
probability, its scrubbed non-excess-gate term is zero, its scrubbed GP
density term is zero, and its scrubbed moderate density term is the
finite truncated-lognormal log density of the sample; the total returned
by loglik adds exactly these six scrubbed terms at that cell. -/
theorem loglik_at_threshold_terms (erf : ℝ → ℝ) {n : ℕ}
    (samples : Fin n → FP) (gpd_stats moderate_stats : Fin n → FP × FP)
    (zero_probs excess_probs threshes : Fin n → FP) (i : Fin n)
    (t re m v : ℝ)
    (hs : samples i = FP.fin t) (hth : threshes i = FP.fin t) (ht : 0 < t)
    (hre : excess_probs i = FP.fin re) (hre0 : 0 < re) (hre1 : re < 1)
    (hm : (moderate_stats i).1 = FP.fin m)
    (hv : (moderate_stats i).2 = FP.fin v) (hv0 : 0 < v)
    (herf : ∀ x, -1 ≤ erf x ∧ erf x ≤ 1) :
    nan_to_num (nan_transfer samples
        (loglik_above_thresh samples threshes excess_probs).1) (FP.fin 0) i =
      FP.fin (Real.log re) ∧
    nan_to_num (nan_transfer samples
        (loglik_above_thresh samples threshes excess_probs).2) (FP.fin 0) i =
      FP.fin 0 ∧
    nan_to_num (nan_transfer samples
        (gpd (loglik_excesses samples threshes)
          (fun j => (gpd_stats j).1) (fun j => (gpd_stats j).2))) (FP.fin 0) i =
      FP.fin 0 ∧
    (nan_to_num (nan_transfer samples
        (loglik_main erf samples threshes
          (fun j => (moderate_stats j).1) (fun j => (moderate_stats j).2)))
        (FP.fin 0) i =
      (threshed_lognorm erf (loglik_nonzeros samples threshes) threshes
        (fun j => (moderate_stats j).1) (fun j => (moderate_stats j).2) (1e-6)).2 i ∧
      FP.isFin ((threshed_lognorm erf (loglik_nonzeros samples threshes) threshes
        (fun j => (moderate_stats j).1) (fun j => (moderate_stats j).2)
          (1e-6)).2 i) = true) ∧
    (∀ out, loglik erf samples gpd_stats moderate_stats zero_probs excess_probs
        threshes "lognormal" = Except.ok out →
      out i =
        FP.add (FP.add (FP.add (FP.add (FP.add
          (nan_to_num (nan_transfer samples
            (loglik_zero samples zero_probs).1) (FP.fin 0) i)
          (nan_to_num (nan_transfer samples
            (loglik_zero samples zero_probs).2) (FP.fin 0) i))
          (nan_to_num (nan_transfer samples
            (loglik_above_thresh samples threshes excess_probs).2) (FP.fin 0) i))
          (nan_to_num (nan_transfer samples
            (loglik_main erf samples threshes
              (fun j => (moderate_stats j).1) (fun j => (moderate_stats j).2)))
            (FP.fin 0) i))
          (nan_to_num (nan_transfer samples
            (loglik_above_thresh samples threshes excess_probs).1) (FP.fin 0) i))
          (nan_to_num (nan_transfer samples
            (gpd (loglik_excesses samples threshes)
              (fun j => (gpd_stats j).1) (fun j => (gpd_stats j).2)))
            (FP.fin 0) i)) := by
  have hsnan : FP.isnan (samples i) = false := by rw [hs]; rfl
  have htb : FP.fle (threshes i) (samples i) ∧ FP.flt (FP.fin 0) (samples i) := by
    rw [hs, hth]
    exact ⟨Or.inr rfl, ht⟩
  have hnexc : ¬ FP.flt (threshes i) (samples i) := by
    rw [hs, hth]
    exact fun hlt => absurd (show t < t from hlt) (lt_irrefl t)
  have hnzi : FP.flt (FP.fin 0) (samples i) ∧ ¬ FP.flt (threshes i) (samples i) := by
    refine ⟨?_, hnexc⟩
    rw [hs]
    exact ht
  have hntb : ¬ (FP.flt (samples i) (threshes i) ∧ FP.flt (FP.fin 0) (samples i)) := by
    rintro ⟨h1, -⟩
    rw [hs, hth] at h1
    exact absurd (show t < t from h1) (lt_irrefl t)
  have e1 : (loglik_above_thresh samples threshes excess_probs).1 i =
      FP.fin (1 * Real.log re) := by
    have h0 : (loglik_above_thresh samples threshes excess_probs).1 i =
        FP.mul (boolFP (FP.fle (threshes i) (samples i) ∧
          FP.flt (FP.fin 0) (samples i))) (FP.flog (excess_probs i)) := rfl
    rw [h0, hre, flog_fin_pos hre0]
    simp only [boolFP]
    rw [if_pos htb, FP.mul_fin_fin]
  have c1 : nan_to_num (nan_transfer samples
      (loglik_above_thresh samples threshes excess_probs).1) (FP.fin 0) i =
      FP.fin (Real.log re) := by
    rw [scrub_val _ _ _ hsnan (by rw [e1]; rfl), e1, one_mul]
  have e2 : (loglik_above_thresh samples threshes excess_probs).2 i = FP.fin 0 := by
    have h0 : (loglik_above_thresh samples threshes excess_probs).2 i =
        FP.mul (boolFP (FP.flt (samples i) (threshes i) ∧
          FP.flt (FP.fin 0) (samples i)))
          (FP.flog (FP.sub (FP.fin 1) (excess_probs i))) := rfl
    rw [h0, hre, FP.sub_fin_fin, flog_fin_pos (by linarith)]
    simp only [boolFP]
    rw [if_neg hntb, FP.mul_fin_fin, zero_mul]
  have c2 : nan_to_num (nan_transfer samples
      (loglik_above_thresh samples threshes excess_probs).2) (FP.fin 0) i =
      FP.fin 0 := by
    rw [scrub_val _ _ _ hsnan (by rw [e2]; rfl), e2]
  have eE : loglik_excesses samples threshes i = FP.nan := by
    simp only [loglik_excesses]
    rw [if_neg hnexc, div_zero_zero_nan]
  have e3 : gpd (loglik_excesses samples threshes)
      (fun j => (gpd_stats j).1) (fun j => (gpd_stats j).2) i = FP.nan := by
    have hmask : ¬ (FP.isnan (loglik_excesses samples threshes i) = false ∧
        FP.isnan ((gpd_stats i).1) = false) := by
      rintro ⟨hc, -⟩
      rw [eE] at hc
      simp [FP.isnan] at hc
    simp only [gpd]
    rw [if_pos hmask]
  have c3 : nan_to_num (nan_transfer samples
      (gpd (loglik_excesses samples threshes)
        (fun j => (gpd_stats j).1) (fun j => (gpd_stats j).2))) (FP.fin 0) i =
      FP.fin 0 :=
    scrub_nanval _ _ _ (by rw [e3]; rfl)
  have hX : loglik_nonzeros samples threshes i = FP.fin (0 + t) := by
    simp only [loglik_nonzeros]
    rw [if_pos hnzi, hs]
    rfl
  have h0t : (0 : ℝ) < 0 + t := by linarith
  have hne0 : ¬ FP.feq (FP.fin (0 + t)) (FP.fin 0) := by
    intro hc
    exact absurd (show (0 : ℝ) + t = 0 from hc) (by linarith)
  have h2v : (0 : ℝ) < 2 * v := by linarith
  have hln : ∃ L, (lognormal (loglik_nonzeros samples threshes)
      (fun j => (moderate_stats j).1) (fun j => (moderate_stats j).2)).2 i =
      FP.fin L := by
    simp only [lognormal, hX, if_neg hne0, hm, hv, flog_fin_pos h0t,
      flog_fin_pos hv0, flog_fin_pos (show (0 : ℝ) < 2 * 3.14159274 by norm_num),
      FP.neg_fin, FP.mul_fin_fin, FP.sub_fin_fin, FP.add_fin_fin,
      fpow_fin_two, div_fin_fin (ne_of_gt h2v)]
    exact ⟨_, rfl⟩
  have hden : Real.rpow v 0.5 * FP.sqrt2 ≠ 0 := by
    have h1 : 0 < Real.rpow v 0.5 := Real.rpow_pos_of_pos hv0 0.5
    have h2 : 0 < FP.sqrt2 := by
      show 0 < Real.sqrt 2
      exact Real.sqrt_pos.mpr (by norm_num)
    exact ne_of_gt (mul_pos h1 h2)
  have hcdf : lognorm_cdf erf threshes (fun j => (moderate_stats j).1)
      (fun j => (moderate_stats j).2) i =
      FP.fin (0.5 + 0.5 * erf ((Real.log t - m) / (Real.rpow v 0.5 * FP.sqrt2))) := by
    dsimp only [lognorm_cdf]
    rw [hth, hm, hv, flog_fin_pos ht, fpow_fin_half hv0, FP.sub_fin_fin,
      FP.mul_fin_fin, div_fin_fin hden]
    rfl
  have hpos : (0 : ℝ) <
      0.5 + 0.5 * erf ((Real.log t - m) / (Real.rpow v 0.5 * FP.sqrt2)) + 1e-6 := by
    have := (herf ((Real.log t - m) / (Real.rpow v 0.5 * FP.sqrt2))).1
    linarith
  obtain ⟨L, hL⟩ := hln
  have hTL : (threshed_lognorm erf (loglik_nonzeros samples threshes) threshes
      (fun j => (moderate_stats j).1) (fun j => (moderate_stats j).2)
        (1e-6)).2 i =
      FP.fin (L - Real.log (0.5 +
        0.5 * erf ((Real.log t - m) / (Real.rpow v 0.5 * FP.sqrt2)) + 1e-6)) := by
    dsimp only [threshed_lognorm]
    rw [hL, hcdf, FP.add_fin_fin, flog_fin_pos hpos, FP.sub_fin_fin]
  have e4 : loglik_main erf samples threshes (fun j => (moderate_stats j).1)
      (fun j => (moderate_stats j).2) i =
      (threshed_lognorm erf (loglik_nonzeros samples threshes) threshes
        (fun j => (moderate_stats j).1) (fun j => (moderate_stats j).2)
          (1e-6)).2 i := by
    simp only [loglik_main]
    rw [if_neg (not_not_intro hnzi)]
  have c4a : nan_to_num (nan_transfer samples
      (loglik_main erf samples threshes (fun j => (moderate_stats j).1)
        (fun j => (moderate_stats j).2))) (FP.fin 0) i =
      (threshed_lognorm erf (loglik_nonzeros samples threshes) threshes
        (fun j => (moderate_stats j).1) (fun j => (moderate_stats j).2)
          (1e-6)).2 i := by
    rw [scrub_val _ _ _ hsnan (by rw [e4, hTL]; rfl), e4]
  have c4b : FP.isFin ((threshed_lognorm erf (loglik_nonzeros samples threshes)
      threshes (fun j => (moderate_stats j).1) (fun j => (moderate_stats j).2)
        (1e-6)).2 i) = true := by
    rw [hTL]
    rfl
  refine ⟨c1, c2, c3, ⟨c4a, c4b⟩, ?_⟩
  intro out hout
  simp only [loglik, eq_self_iff_true, if_true, Except.ok.injEq] at hout
  subst hout
  have hnn : ¬ (FP.isnan (samples i) = true) := by simp [hsnan]
  simp only [if_neg hnn]

/-- Witness for C2 as amended at sample 5, threshold 5, excess
probability one third, lognormal parameters zero and one, and the
constantly-zero error function. -/
theorem loglik_at_threshold_terms_witness :
    ((0 : ℝ) < 5 ∧ (0 : ℝ) < 1 / 3 ∧ (1 : ℝ) / 3 < 1 ∧ (0 : ℝ) < 1 ∧
      (∀ x : ℝ, -1 ≤ (fun _ : ℝ => (0 : ℝ)) x ∧ (fun _ : ℝ => (0 : ℝ)) x ≤ 1)) ∧
    nan_to_num (nan_transfer (fun _ : Fin 1 => FP.fin 5)
        (loglik_above_thresh (fun _ : Fin 1 => FP.fin 5) (fun _ => FP.fin 5)
          (fun _ => FP.fin (1 / 3))).1) (FP.fin 0) 0 =
      FP.fin (Real.log (1 / 3)) :=
  ⟨⟨by norm_num, by norm_num, by norm_num, by norm_num,
    fun x => ⟨by norm_num, by norm_num⟩⟩,
   (loglik_at_threshold_terms (fun _ => 0) (fun _ : Fin 1 => FP.fin 5)
      (fun _ => (FP.fin 0, FP.fin 1)) (fun _ => (FP.fin 0, FP.fin 1))
      (fun _ => FP.fin (1 / 2)) (fun _ => FP.fin (1 / 3)) (fun _ => FP.fin 5)
      0 5 (1 / 3) 0 1 rfl rfl (by norm_num) rfl (by norm_num) (by norm_num)
      rfl rfl (by norm_num) (fun x => ⟨by norm_num, by norm_num⟩)).1⟩

/-- C10: the GP cdf formula divides by the shape with no zero-shape
branch, so at shape exactly zero its exponent is the IEEE division of
minus one by zero (negative infinity); this cell is reachable from
all_cdf, whose output at any cell with zero constrained shape and sample
strictly above the effective threshold is a previous accumulation plus
the weighted gpd_cdf term evaluated at shape zero; the GP log density
gpd, by contrast, handles zero shape with its dedicated
exponential-limit branch, which performs no division by the shape. -/
theorem gpd_cdf_xi_zero_division_unguarded (erf2 : ℝ → ℝ) {n : ℕ}
    (samples : Fin n → FP) (gpd_stats moderate_stats : Fin n → FP × FP)
    (zero_probs excess_probs eff act : Fin n → FP) (i : Fin n)
    (hxi : (gpd_stats i).1 = FP.fin 0) (hex : FP.flt (eff i) (samples i)) :
    FP.div (FP.fin (-1)) (FP.fin 0) = FP.ninf ∧
    gpd_cdf samples (fun j => (gpd_stats j).1) (fun j => (gpd_stats j).2) act i =
      FP.sub (FP.fin 1)
        (FP.fpow
          (FP.add (FP.fin 1)
            (FP.div (FP.mul (FP.fin 0) (FP.sub (samples i) (act i)))
              ((gpd_stats i).2)))
          FP.ninf) ∧
    gpd samples (fun j => (gpd_stats j).1) (fun j => (gpd_stats j).2) i =
      FP.neg (FP.add (FP.flog ((gpd_stats i).2))
        (FP.mul (FP.div (FP.fin 1) ((gpd_stats i).2)) (samples i))) ∧
    (∀ out, all_cdf erf2 samples gpd_stats moderate_stats zero_probs excess_probs
        eff act "lognormal" = Except.ok out →
      ∃ prev, out i = FP.add prev
        (FP.mul (FP.mul (FP.sub (FP.fin 1) (zero_probs i)) (excess_probs i))
          (gpd_cdf samples (fun j => (gpd_stats j).1) (fun j => (gpd_stats j).2)
            act i))) := by
  have hsnan : FP.isnan (samples i) = false := by
    cases hs : samples i with
    | nan => exact absurd (hs ▸ hex) (flt_nan_right _)
    | fin y => rfl
    | pinf => rfl
    | ninf => rfl
  refine ⟨div_neg_one_zero, ?_, ?_, ?_⟩
  · simp only [gpd_cdf, hxi, div_neg_one_zero]
  · have hmask : FP.isnan (samples i) = false ∧
        FP.isnan ((fun j => (gpd_stats j).1) i) = false := by
      refine ⟨hsnan, ?_⟩
      simp only [hxi]; rfl
    have hfeq : FP.feq ((fun j => (gpd_stats j).1) i) (FP.fin 0) := by
      simp only [hxi]; simp [FP.feq]
    simp only [gpd]
    rw [if_neg (by simpa using hmask), if_pos hfeq, if_pos hmask, zero_add_fp]
  · intro out hout
    simp only [all_cdf, eq_self_iff_true, if_true, Except.ok.injEq] at hout
    subst hout
    refine ⟨if FP.flt (FP.fin 0) (samples i) then
        FP.add (if FP.fle (FP.fin 0) (samples i) then FP.add (FP.fin 0) (zero_probs i)
            else FP.fin 0)
          (FP.mul (FP.mul (FP.sub (FP.fin 1) (zero_probs i))
              (FP.sub (FP.fin 1) (excess_probs i)))
            (threshed_lognorm_cdf erf2 samples (fun j => (moderate_stats j).1)
              (fun j => (moderate_stats j).2) none (some eff) i))
      else (if FP.fle (FP.fin 0) (samples i) then FP.add (FP.fin 0) (zero_probs i)
            else FP.fin 0), ?_⟩
    simp only [if_pos hex]

/-- Witness for C10: a one-cell batch with sample 2, effective and actual
threshold 1, constrained shape exactly zero, scale 1. -/
theorem gpd_cdf_xi_zero_division_unguarded_witness :
    ((fun _ : Fin 1 => (FP.fin 0, FP.fin 1)) 0).1 = FP.fin 0 ∧
      FP.flt ((fun _ : Fin 1 => FP.fin 1) 0) ((fun _ : Fin 1 => FP.fin 2) 0) ∧
      (FP.div (FP.fin (-1)) (FP.fin 0) = FP.ninf ∧
        gpd_cdf (fun _ : Fin 1 => FP.fin 2) (fun j => ((fun _ : Fin 1 => (FP.fin 0, FP.fin 1)) j).1)
            (fun j => ((fun _ : Fin 1 => (FP.fin 0, FP.fin 1)) j).2)
            (fun _ => FP.fin 1) 0 =
          FP.sub (FP.fin 1)
            (FP.fpow
              (FP.add (FP.fin 1)
                (FP.div (FP.mul (FP.fin 0)
                  (FP.sub ((fun _ : Fin 1 => FP.fin 2) 0) ((fun _ : Fin 1 => FP.fin 1) 0)))
                  (((fun _ : Fin 1 => (FP.fin 0, FP.fin 1)) 0).2)))
              FP.ninf) ∧
        gpd (fun _ : Fin 1 => FP.fin 2) (fun j => ((fun _ : Fin 1 => (FP.fin 0, FP.fin 1)) j).1)
            (fun j => ((fun _ : Fin 1 => (FP.fin 0, FP.fin 1)) j).2) 0 =
          FP.neg (FP.add (FP.flog (((fun _ : Fin 1 => (FP.fin 0, FP.fin 1)) 0).2))
            (FP.mul (FP.div (FP.fin 1) (((fun _ : Fin 1 => (FP.fin 0, FP.fin 1)) 0).2))
              ((fun _ : Fin 1 => FP.fin 2) 0))) ∧
        (∀ out, all_cdf id (fun _ : Fin 1 => FP.fin 2)
            (fun _ => (FP.fin 0, FP.fin 1)) (fun _ => (FP.fin 0, FP.fin 1))
            (fun _ => FP.fin 0.5) (fun _ => FP.fin 0.5) (fun _ => FP.fin 1)
            (fun _ => FP.fin 1) "lognormal" = Except.ok out →
          ∃ prev, out 0 = FP.add prev
            (FP.mul (FP.mul (FP.sub (FP.fin 1) ((fun _ : Fin 1 => FP.fin 0.5) 0))
                ((fun _ : Fin 1 => FP.fin 0.5) 0))
              (gpd_cdf (fun _ : Fin 1 => FP.fin 2)
                (fun j => ((fun _ : Fin 1 => (FP.fin 0, FP.fin 1)) j).1)
                (fun j => ((fun _ : Fin 1 => (FP.fin 0, FP.fin 1)) j).2)
                (fun _ => FP.fin 1) 0)))) :=
  ⟨rfl, by simp [FP.flt],
    gpd_cdf_xi_zero_division_unguarded id (fun _ => FP.fin 2)
      (fun _ => (FP.fin 0, FP.fin 1)) (fun _ => (FP.fin 0, FP.fin 1))
      (fun _ => FP.fin 0.5) (fun _ => FP.fin 0.5) (fun _ => FP.fin 1)
      (fun _ => FP.fin 1) 0 rfl (by simp [FP.flt])⟩

/-- Witness for C5 on a one-cell batch with threshold positive infinity
and two different GP parameter pairs. -/
theorem all_mean_hurdle_when_thresh_inf_witness :
    (∀ i : Fin 1, (fun _ : Fin 1 => FP.pinf) i = FP.pinf) ∧
      (all_mean id (fun _ : Fin 1 => (FP.fin 0, FP.fin 1))
          (fun _ => (FP.fin 0, FP.fin 1)) (fun _ => FP.fin 0.5)
          (fun _ => FP.fin 0.5) (fun _ => FP.pinf) "lognormal" =
        Except.ok (hurdle_mean id (fun _ : Fin 1 => (FP.fin 0, FP.fin 1))
          (fun _ => FP.fin 0.5) (fun _ => FP.fin 0.5) (fun _ => FP.pinf)) ∧
      all_mean id (fun _ : Fin 1 => (FP.fin 0, FP.fin 1))
          (fun _ => (FP.fin 0, FP.fin 1)) (fun _ => FP.fin 0.5)
          (fun _ => FP.fin 0.5) (fun _ => FP.pinf) "lognormal" =
        all_mean id (fun _ : Fin 1 => (FP.fin 3, FP.fin 7))
          (fun _ => (FP.fin 0, FP.fin 1)) (fun _ => FP.fin 0.5)
          (fun _ => FP.fin 0.5) (fun _ => FP.pinf) "lognormal") :=
  ⟨fun _ => rfl,
    all_mean_hurdle_when_thresh_inf id (fun _ => (FP.fin 0, FP.fin 1))
      (fun _ => (FP.fin 3, FP.fin 7)) (fun _ => (FP.fin 0, FP.fin 1))
      (fun _ => FP.fin 0.5) (fun _ => FP.fin 0.5) (fun _ => FP.pinf)
      (fun _ => rfl)⟩

end DEMM
